import Mathlib

/-!
Verification of the Kruskal maze generator (`src/kruskal_maze.py`).

The maze is a `(2*width+1) x (2*height+1)` grid of cells, each either a wall
(`CELL_WALL = 1`) or a passage (`CELL_PASSAGE = 0`).  The generator builds the
grid, collects the removable walls, and repeatedly samples a random wall,
removing it when the two logical cells it separates are in distinct components
of a disjoint-set structure, until a single component remains.  Afterwards two
distinct passage cells are sampled as start and end markers.

Rendering (tkinter canvas, animation delays) has no effect on the maze state
and is not modelled.  The random source (`random.randint`) is modelled as an
explicit stream `rand : Nat -> Nat` together with a draw counter: the k-th
call of `randint a b` returns `a + rand k % (b - a + 1)`, which is exactly an
arbitrary in-range value; theorems quantify over all streams.
-/

/-- Cell state constant: a wall (`CELL_WALL = 1` in the source). -/
def CELL_WALL : Nat := 1

/-- Cell state constant: a passage (`CELL_PASSAGE = 0` in the source). -/
def CELL_PASSAGE : Nat := 0

/-- Modelled from the spec: `cell.py` is not under `src/`.  The spec (section 3)
defines a Cell as an integer coordinate pair `(x, y)` in grid space, which is
all the generator uses (`Cell(x, y)`, `.x`, `.y`). -/
structure Cell where
  x : Nat
  y : Nat
deriving DecidableEq

/-- Read `maze[y][x]` from the row-major grid (out-of-range reads default to a
wall; every access the generator performs is proved in range). -/
def getCell (m : List (List Nat)) (x y : Nat) : Nat :=
  (m.getD y []).getD x CELL_WALL

/-- Write `maze[y][x] := v`, mirroring the single grid mutation of the source. -/
def setCell (m : List (List Nat)) (x y v : Nat) : List (List Nat) :=
  m.set y ((m.getD y []).set x v)

/-- The initial grid of `KruskalMaze.__init__`: `(2*width+1) x (2*height+1)`
cells, passage iff both coordinates are odd. -/
def initMaze (width height : Nat) : List (List Nat) :=
  (List.range (2 * height + 1)).map (fun y =>
    (List.range (2 * width + 1)).map (fun x =>
      if x % 2 = 1 ∧ y % 2 = 1 then CELL_PASSAGE else CELL_WALL))

/-- Modelled from the spec: `disjoint_set.py` is not under `src/`.  Per spec
sections 3 and 4.1, the structure tracks a partition of the `width x height`
logical cells together with a live `set_count`; `find` returns the canonical
representative of a cell's component (path compression only affects cost, not
the contract), and `union` merges two distinct components, decrementing
`set_count` by exactly 1.  We represent the partition by its representative
map over flat logical indices `j * width + i`. -/
structure DisjointSet where
  width : Nat
  height : Nat
  rep : Nat → Nat
  set_count : Nat

/-- Modelled from the spec: the constructor `DisjointSet(width, height)` starts
with every logical cell its own component, so `set_count = width * height`. -/
def DisjointSet.init (width height : Nat) : DisjointSet :=
  { width := width, height := height, rep := fun i => i, set_count := width * height }

/-- Modelled from the spec: the generator passes grid coordinates, and logical
cell `(i, j)` sits at grid cell `(2i+1, 2j+1)`; a cell outside the
`[0, width) x [0, height)` logical range (in particular any non odd/odd grid
cell) is an out-of-range error, modelled as `none`. -/
def DisjointSet.logical (d : DisjointSet) (c : Cell) : Option Nat :=
  if c.x % 2 = 1 ∧ c.y % 2 = 1 ∧ c.x / 2 < d.width ∧ c.y / 2 < d.height then
    some (c.y / 2 * d.width + c.x / 2)
  else
    none

/-- Modelled from the spec (4.1): `find(cell)` returns the representative of the
component containing `cell`, or the out-of-range error. -/
def DisjointSet.find (d : DisjointSet) (c : Cell) : Option Nat :=
  (d.logical c).map d.rep

/-- Modelled from the spec (4.1): `union(cellA, cellB)` returns `false` and
changes nothing when the two cells share a representative, otherwise merges the
two components and decrements `set_count` by exactly 1. -/
def DisjointSet.union (d : DisjointSet) (c1 c2 : Cell) : Option (DisjointSet × Bool) :=
  match d.find c1, d.find c2 with
  | some r1, some r2 =>
    if r1 = r2 then
      some (d, false)
    else
      some ({ d with
              rep := fun i => if d.rep i = r1 then r2 else d.rep i,
              set_count := d.set_count - 1 }, true)
  | _, _ => none

/-- `KruskalMaze.is_wall_removable`: the cell is currently a wall, not on the
border of the grid, and adjacent (4-neighbourhood) to a passage. -/
def is_wall_removable (mw mh : Nat) (m : List (List Nat)) (c : Cell) : Bool :=
  if getCell m c.x c.y = CELL_WALL then
    if c.x = 0 ∨ c.x = mw - 1 ∨ c.y = 0 ∨ c.y = mh - 1 then
      false
    else if getCell m c.x (c.y - 1) = CELL_PASSAGE ∨ getCell m c.x (c.y + 1) = CELL_PASSAGE ∨
            getCell m (c.x - 1) c.y = CELL_PASSAGE ∨ getCell m (c.x + 1) c.y = CELL_PASSAGE then
      true
    else
      false
  else
    false

/-- All grid cells in the source's scan order (`y` outer, `x` inner). -/
def allCells (mw mh : Nat) : List Cell :=
  (List.range mh).flatMap (fun y => (List.range mw).map (fun x => Cell.mk x y))

/-- The candidate list built at the top of `generate_maze_kruskal`: every grid
cell, in scan order, for which `is_wall_removable` holds on the initial grid. -/
def buildCandidates (mw mh : Nat) (m : List (List Nat)) : List Cell :=
  (allCells mw mh).filter (fun c => is_wall_removable mw mh m c)

/-- The generator state: the fields of `KruskalMaze` that the algorithm reads
or writes (`maze_width`, `maze_height`, `maze`, `disjoint_set`), plus the local
`removable_walls` list of `generate_maze_kruskal`, the number of wall-removed
events so far, and the position `k` in the random stream. -/
structure KruskalMaze where
  maze_width : Nat
  maze_height : Nat
  maze : List (List Nat)
  disjoint_set : DisjointSet
  removable_walls : List Cell
  events : Nat
  k : Nat

/-- The state right after `__init__` built the grid and the disjoint set and
`generate_maze_kruskal` built the candidate list (the source performs no size
validation whatsoever: this is total). -/
def initState (width height : Nat) : KruskalMaze :=
  { maze_width := 2 * width + 1,
    maze_height := 2 * height + 1,
    maze := initMaze width height,
    disjoint_set := DisjointSet.init width height,
    removable_walls := buildCandidates (2 * width + 1) (2 * height + 1) (initMaze width height),
    events := 0,
    k := 0 }

/-- `random.randint(a, b)` at stream position `k`: an arbitrary value of the
stream mapped into `[a, b]` (for `a ≤ b`). -/
def randint (rand : Nat → Nat) (k a b : Nat) : Nat :=
  a + rand k % (b - a + 1)

/-- Outcome of one loop iteration: the next state, or the disjoint-set
out-of-range error. -/
inductive StepOut where
  | crash : StepOut
  | next : KruskalMaze → StepOut


/-- The random index drawn at the top of a loop iteration:
`random.randint(0, len(removable_walls) - 1)`. -/
def sampledIndex (rand : Nat → Nat) (s : KruskalMaze) : Nat :=
  randint rand s.k 0 (s.removable_walls.length - 1)

/-- The wall sampled in a loop iteration: `removable_walls[wall_index]`. -/
def sampledWall (rand : Nat → Nat) (s : KruskalMaze) : Cell :=
  s.removable_walls.getD (sampledIndex rand s) (Cell.mk 0 0)

/-- The first cell the sampled wall separates: the cell above when the wall's
`x` is odd, the cell to the left otherwise. -/
def stepCell1 (rand : Nat → Nat) (s : KruskalMaze) : Cell :=
  let wall := sampledWall rand s
  if wall.x % 2 = 1 then Cell.mk wall.x (wall.y - 1) else Cell.mk (wall.x - 1) wall.y

/-- The second cell the sampled wall separates: the cell below when the wall's
`x` is odd, the cell to the right otherwise. -/
def stepCell2 (rand : Nat → Nat) (s : KruskalMaze) : Cell :=
  let wall := sampledWall rand s
  if wall.x % 2 = 1 then Cell.mk wall.x (wall.y + 1) else Cell.mk (wall.x + 1) wall.y

/-- One iteration of the `while` loop of `generate_maze_kruskal`: sample a
random wall, derive the two cells it separates (above/below when its `x` is
odd, left/right otherwise), and if their representatives differ, convert the
wall to a passage, union the cells, and pop the wall from the candidate list.
When the representatives agree, nothing but the stream position changes. -/
def loopStep (rand : Nat → Nat) (s : KruskalMaze) : StepOut :=
  let wall_index := sampledIndex rand s
  let wall := sampledWall rand s
  let cell1 := stepCell1 rand s
  let cell2 := stepCell2 rand s
  match s.disjoint_set.find cell1, s.disjoint_set.find cell2 with
  | some r1, some r2 =>
    if r1 = r2 then
      StepOut.next { s with k := s.k + 1 }
    else
      match s.disjoint_set.union cell1 cell2 with
      | some d2 =>
        StepOut.next { s with
          maze := setCell s.maze wall.x wall.y CELL_PASSAGE,
          disjoint_set := d2.1,
          removable_walls := s.removable_walls.eraseIdx wall_index,
          events := s.events + 1,
          k := s.k + 1 }
      | none => StepOut.crash
  | _, _ => StepOut.crash

/-- The loop guard: `disjoint_set.set_count > 1 and removable_walls`. -/
def loopGuard (s : KruskalMaze) : Bool :=
  decide (1 < s.disjoint_set.set_count) && !s.removable_walls.isEmpty

/-- Outcome of running the loop: the final state when the guard became false,
the current state when the fuel ran out first, or the out-of-range error. -/
inductive RunOut where
  | crash : RunOut
  | outOfFuel : KruskalMaze → RunOut
  | finished : KruskalMaze → RunOut


/-- The `while` loop of `generate_maze_kruskal`, indexed by fuel: `finished`
is exactly the source loop exiting through its guard. -/
def runLoop (rand : Nat → Nat) : Nat → KruskalMaze → RunOut
  | 0, s => if loopGuard s then RunOut.outOfFuel s else RunOut.finished s
  | fuel + 1, s =>
    if loopGuard s then
      match loopStep rand s with
      | StepOut.crash => RunOut.crash
      | StepOut.next s2 => runLoop rand fuel s2
    else
      RunOut.finished s

/-- One rejection-sampling loop of `mark_start_end_cells`: sample
`x ∈ [1, mw-2]`, `y ∈ [1, mh-2]` and retry until `good`; each round consumes
two stream draws.  `none` models the source loop never exiting within `fuel`
rounds. -/
def pickCell (mw mh : Nat) (rand : Nat → Nat) (good : Cell → Bool) :
    Nat → Nat → Option (Cell × Nat)
  | 0, _ => none
  | fuel + 1, k =>
    let c := Cell.mk (randint rand k 1 (mw - 2)) (randint rand (k + 1) 1 (mh - 2))
    if good c then some (c, k + 2) else pickCell mw mh rand good fuel (k + 2)

/-- `mark_start_end_cells`: draw a start cell until it is a passage, then an
end cell until it is a passage different from the start. -/
def markStartEnd (mw mh : Nat) (m : List (List Nat)) (rand : Nat → Nat)
    (k fuel : Nat) : Option (Cell × Cell) :=
  match pickCell mw mh rand (fun c => getCell m c.x c.y = CELL_PASSAGE) fuel k with
  | none => none
  | some (st, k1) =>
    match pickCell mw mh rand
        (fun c => decide (getCell m c.x c.y = CELL_PASSAGE) && !(st.x = c.x && st.y = c.y)) fuel k1 with
    | none => none
    | some (en, _) => some (st, en)

/-- The whole run: generation loop from the initial state, then start/end
selection on the final grid. -/
def runAll (width height : Nat) (rand : Nat → Nat) (fuel : Nat) :
    Option (KruskalMaze × Cell × Cell) :=
  match runLoop rand fuel (initState width height) with
  | RunOut.finished s =>
    (markStartEnd s.maze_width s.maze_height s.maze rand s.k fuel).map
      (fun p => (s, p.1, p.2))
  | _ => none

/-- The state carried by a run outcome (junk on a crash); lets closed theorems
name the state a concrete run reaches. -/
def runState (o : RunOut) : KruskalMaze :=
  match o with
  | RunOut.crash => initState 0 0
  | RunOut.outOfFuel s => s
  | RunOut.finished s => s

/-- The state carried by a step outcome (junk on a crash). -/
def stepState (o : StepOut) : KruskalMaze :=
  match o with
  | StepOut.crash => initState 0 0
  | StepOut.next s => s

/-- Number of passage cells at odd/odd (logical) positions of the grid. -/
def oddOddPassages (mw mh : Nat) (m : List (List Nat)) : Nat :=
  ((allCells mw mh).filter
    (fun c => decide (c.x % 2 = 1 ∧ c.y % 2 = 1) && decide (getCell m c.x c.y = CELL_PASSAGE))).length

/-- Number of passage cells at the remaining (non odd/odd) positions: exactly
the walls converted to passages during the run. -/
def convertedPassages (mw mh : Nat) (m : List (List Nat)) : Nat :=
  ((allCells mw mh).filter
    (fun c => !decide (c.x % 2 = 1 ∧ c.y % 2 = 1) && decide (getCell m c.x c.y = CELL_PASSAGE))).length

/-- A concrete random stream: draws 0, 2, 3, 1, 0, 0, ... It drives a 3 x 2
run into an iteration whose sampled wall separates two already-connected
cells. -/
def crandC3 : Nat → Nat :=
  fun k => if k = 1 then 2 else if k = 2 then 3 else if k = 3 then 1 else 0

/-- A concrete random stream: draws 0, 1, 0, 0, ... On a 2 x 1 run it makes
start/end selection pick the converted-wall cell `(2, 1)` as the start. -/
def crandC7 : Nat → Nat :=
  fun k => if k = 1 then 1 else 0

/-! ### Grid lemmas -/

theorem initMaze_length (w h : Nat) : (initMaze w h).length = 2 * h + 1 := by
  simp [initMaze]

theorem initMaze_row_length (w h : Nat) :
    ∀ row ∈ initMaze w h, row.length = 2 * w + 1 := by
  intro row hrow
  simp only [initMaze, List.mem_map] at hrow
  obtain ⟨y, -, rfl⟩ := hrow
  simp

theorem getCell_eq (m : List (List Nat)) (x y : Nat) :
    getCell m x y = (m[y]?.getD [])[x]?.getD CELL_WALL := by
  simp [getCell, List.getD_eq_getElem?_getD]

theorem getCell_initMaze (w h x y : Nat) :
    getCell (initMaze w h) x y =
      if x % 2 = 1 ∧ y % 2 = 1 ∧ x < 2 * w + 1 ∧ y < 2 * h + 1 then CELL_PASSAGE
      else CELL_WALL := by
  rw [getCell_eq]
  unfold initMaze
  rcases Nat.lt_or_ge y (2 * h + 1) with hy | hy
  · rw [List.getElem?_map, List.getElem?_range hy]
    simp only [Option.map_some', Option.getD_some]
    rcases Nat.lt_or_ge x (2 * w + 1) with hx | hx
    · rw [List.getElem?_map, List.getElem?_range hx]
      simp only [Option.map_some', Option.getD_some]
      by_cases hp : x % 2 = 1 ∧ y % 2 = 1
      · simp [hp, hx, hy]
      · simp only [if_neg hp]
        rw [if_neg]
        intro hcon
        exact hp ⟨hcon.1, hcon.2.1⟩
    · have hnone : (List.map (fun x => if x % 2 = 1 ∧ y % 2 = 1 then CELL_PASSAGE else CELL_WALL)
          (List.range (2 * w + 1)))[x]? = none := List.getElem?_eq_none (by simpa using hx)
      rw [hnone]
      simp only [Option.getD_none]
      rw [if_neg (by intro hcon; omega)]
  · have hnone : ((List.range (2 * h + 1)).map (fun y =>
        (List.range (2 * w + 1)).map (fun x =>
          if x % 2 = 1 ∧ y % 2 = 1 then CELL_PASSAGE else CELL_WALL)))[y]? = none :=
      List.getElem?_eq_none (by simpa using hy)
    rw [hnone]
    simp only [Option.getD_none]
    rw [if_neg (by intro hcon; omega)]
    simp

theorem setCell_length (m : List (List Nat)) (x y v : Nat) :
    (setCell m x y v).length = m.length := by
  simp [setCell]

theorem setCell_row_length (m : List (List Nat)) (x y v L : Nat)
    (h : ∀ row ∈ m, row.length = L) (hy : y < m.length) :
    ∀ row ∈ setCell m x y v, row.length = L := by
  intro row hrow
  rcases List.mem_or_eq_of_mem_set hrow with hmem | rfl
  · exact h row hmem
  · rw [List.length_set]
    apply h
    rw [List.getD_eq_getElem _ _ hy]
    exact List.getElem_mem hy

theorem getCell_setCell_of_ne (m : List (List Nat)) (x y v x' y' : Nat)
    (hne : x' ≠ x ∨ y' ≠ y) :
    getCell (setCell m x y v) x' y' = getCell m x' y' := by
  by_cases hy : y' = y
  · subst hy
    have hx : x' ≠ x := by tauto
    rcases Nat.lt_or_ge y' m.length with hylen | hylen
    · rw [getCell_eq, setCell, List.getElem?_set_self (by simpa using hylen),
        Option.getD_some, List.getElem?_set_ne (fun hcon => hx hcon.symm), getCell_eq,
        List.getD_eq_getElem?_getD]
    · rw [setCell, List.set_eq_of_length_le hylen]
  · rw [getCell_eq, setCell, List.getElem?_set_ne (fun hcon => hy hcon.symm), getCell_eq]

theorem getCell_setCell_self (m : List (List Nat)) (x y v : Nat)
    (hy : y < m.length) (hx : x < (m.getD y []).length) :
    getCell (setCell m x y v) x y = v := by
  rw [getCell_eq, setCell, List.getElem?_set_self (by simpa using hy), Option.getD_some,
    List.getElem?_set_self (by simpa using hx), Option.getD_some]

theorem getCell_setCell_or (m : List (List Nat)) (x y v x' y' : Nat) :
    getCell (setCell m x y v) x' y' = getCell m x' y' ∨
      getCell (setCell m x y v) x' y' = v := by
  by_cases hxy : x' = x ∧ y' = y
  · obtain ⟨rfl, rfl⟩ := hxy
    rcases Nat.lt_or_ge y' m.length with hylen | hylen
    · rcases Nat.lt_or_ge x' (m.getD y' []).length with hxlen | hxlen
      · exact Or.inr (getCell_setCell_self m x' y' v hylen hxlen)
      · left
        rw [getCell_eq, setCell, List.getElem?_set_self (by simpa using hylen),
          Option.getD_some, List.set_eq_of_length_le hxlen, getCell_eq,
          List.getD_eq_getElem?_getD]
    · left
      rw [setCell, List.set_eq_of_length_le hylen]
  · exact Or.inl (getCell_setCell_of_ne m x y v x' y' (by tauto))

/-! ### Cell enumeration and counting lemmas -/

theorem mem_allCells (mw mh : Nat) (c : Cell) :
    c ∈ allCells mw mh ↔ c.x < mw ∧ c.y < mh := by
  unfold allCells
  rw [List.mem_flatMap]
  constructor
  · rintro ⟨y, hy, hc⟩
    rw [List.mem_map] at hc
    obtain ⟨x, hx, rfl⟩ := hc
    rw [List.mem_range] at hy hx
    exact ⟨hx, hy⟩
  · rintro ⟨hx, hy⟩
    refine ⟨c.y, List.mem_range.mpr hy, List.mem_map.mpr ⟨c.x, List.mem_range.mpr hx, ?_⟩⟩
    cases c
    rfl

theorem nodup_allCells (mw mh : Nat) : (allCells mw mh).Nodup := by
  unfold allCells
  rw [List.nodup_flatMap]
  constructor
  · intro y _
    refine List.Nodup.map ?_ (List.nodup_range mw)
    intro a b hab
    exact congrArg Cell.x hab
  · have hnd := List.nodup_range mh
    refine List.Pairwise.imp ?_ hnd
    intro a b hne c hca hcb
    rw [List.mem_map] at hca hcb
    obtain ⟨xa, -, rfl⟩ := hca
    obtain ⟨xb, -, hcon⟩ := hcb
    exact hne (congrArg Cell.y hcon).symm

theorem filter_length_succ_of_update {α : Type} (l : List α) (p q : α → Bool) (c0 : α)
    (hnd : l.Nodup) (hc0 : c0 ∈ l) (hp : p c0 = false) (hq : q c0 = true)
    (hsame : ∀ c ∈ l, c ≠ c0 → q c = p c) :
    (l.filter q).length = (l.filter p).length + 1 := by
  induction l with
  | nil => cases hc0
  | cons a t ih =>
    rw [List.nodup_cons] at hnd
    rcases List.mem_cons.mp hc0 with rfl | hmem
    · have hqt : t.filter q = t.filter p := by
        apply List.filter_congr
        intro c hc
        exact hsame c (List.mem_cons_of_mem _ hc) (fun hcon => hnd.1 (hcon ▸ hc))
      rw [List.filter_cons, List.filter_cons, hp, hq]
      simp [hqt]
    · have hane : a ≠ c0 := fun hcon => hnd.1 (hcon ▸ hmem)
      have haq : q a = p a := hsame a (List.mem_cons_self a t) hane
      have hrec := ih hnd.2 hmem (fun c hc hne => hsame c (List.mem_cons_of_mem _ hc) hne)
      rw [List.filter_cons, List.filter_cons, haq]
      cases hpa : p a <;> simp [hpa, hrec]

theorem length_filter_or_disjoint {α : Type} (l : List α) (p q : α → Bool)
    (hdisj : ∀ c ∈ l, ¬(p c = true ∧ q c = true)) :
    (l.filter (fun c => p c || q c)).length = (l.filter p).length + (l.filter q).length := by
  induction l with
  | nil => rfl
  | cons a t ih =>
    have hrec := ih (fun c hc => hdisj c (List.mem_cons_of_mem _ hc))
    have ha := hdisj a (List.mem_cons_self a t)
    rw [List.filter_cons, List.filter_cons, List.filter_cons]
    cases hpa : p a <;> cases hqa : q a
    · simp [hpa, hqa, hrec]
    · simp only [hpa, hqa, Bool.false_or, if_pos, if_neg, cond_true, cond_false]
      simp [hrec]
      omega
    · simp only [hpa, hqa, Bool.true_or, cond_true, cond_false]
      simp [hrec]
      omega
    · exact absurd ⟨hpa, hqa⟩ ha

theorem sum_map_ite_const (l : List Nat) (py : Nat → Bool) (A : Nat) :
    (l.map (fun y => if py y then A else 0)).sum = A * (l.filter py).length := by
  induction l with
  | nil => simp
  | cons a t ih =>
    rw [List.map_cons, List.sum_cons, List.filter_cons, ih]
    cases hpa : py a
    · simp [hpa]
    · simp [hpa]
      ring

theorem length_filter_allCells_prod (mw mh : Nat) (px py : Nat → Bool) :
    ((allCells mw mh).filter (fun c => px c.x && py c.y)).length =
      ((List.range mw).filter px).length * ((List.range mh).filter py).length := by
  unfold allCells
  rw [List.filter_flatMap, List.length_flatMap]
  have hrow : ∀ y, (List.filter (fun c => px c.x && py c.y)
      ((List.range mw).map (fun x => Cell.mk x y))).length =
      if py y then ((List.range mw).filter px).length else 0 := by
    intro y
    rw [List.filter_map]
    rw [List.length_map]
    cases hpy : py y
    · rw [List.filter_eq_nil_iff.mpr]
      · rfl
      · intro x _
        simp [Function.comp, hpy]
    · simp only [if_pos rfl]
      congr 1
      apply List.filter_congr
      intro x _
      simp [Function.comp, hpy]
  calc ((List.range mh).map ((fun l => l.length) ∘ fun y =>
          List.filter (fun c => px c.x && py c.y) ((List.range mw).map fun x => Cell.mk x y))).sum
      = ((List.range mh).map (fun y => if py y then ((List.range mw).filter px).length else 0)).sum := by
        apply congrArg
        apply List.map_congr_left
        intro y _
        exact hrow y
    _ = ((List.range mw).filter px).length * ((List.range mh).filter py).length :=
        sum_map_ite_const _ _ _

theorem length_filter_range_odd (n : Nat) :
    ((List.range (2 * n + 1)).filter (fun x => decide (x % 2 = 1))).length = n := by
  induction n with
  | zero => rfl
  | succ k ih =>
    have hsplit : 2 * (k + 1) + 1 = (2 * k + 1) + 1 + 1 := by ring
    rw [hsplit, List.range_succ, List.filter_append, List.range_succ, List.filter_append]
    have h1 : (2 * k + 1) % 2 = 1 := by omega
    have h2 : (2 * k + 1 + 1) % 2 = 0 := by omega
    simp [h1, h2, ih]

theorem length_filter_range_even_pos (n : Nat) :
    ((List.range (2 * n + 1)).filter (fun x => decide (x % 2 = 0 ∧ 1 ≤ x))).length = n := by
  induction n with
  | zero => rfl
  | succ k ih =>
    have hsplit : 2 * (k + 1) + 1 = (2 * k + 1) + 1 + 1 := by ring
    rw [hsplit, List.range_succ, List.filter_append, List.range_succ, List.filter_append]
    have h1 : (decide ((2 * k + 1) % 2 = 0 ∧ 1 ≤ 2 * k + 1)) = false := by
      rw [decide_eq_false_iff_not]
      omega
    have h2 : (decide ((2 * k + 1 + 1) % 2 = 0 ∧ 1 ≤ 2 * k + 1 + 1)) = true := by
      rw [decide_eq_true_eq]
      omega
    simp only [List.filter_cons, List.filter_nil, h1, h2, List.length_append, ih]
    simp

theorem length_filter_range_even_interior (n : Nat) (hn : 1 ≤ n) :
    ((List.range (2 * n + 1)).filter
      (fun x => decide (x % 2 = 0 ∧ 1 ≤ x ∧ x ≤ 2 * n - 1))).length = n - 1 := by
  have hupd := filter_length_succ_of_update (List.range (2 * n + 1))
    (fun x => decide (x % 2 = 0 ∧ 1 ≤ x ∧ x ≤ 2 * n - 1))
    (fun x => decide (x % 2 = 0 ∧ 1 ≤ x)) (2 * n)
    (List.nodup_range _) (List.mem_range.mpr (by omega))
    (by simp; omega) (by simp; omega)
    (by
      intro c hc hne
      rw [List.mem_range] at hc
      by_cases hpar : c % 2 = 0
      · by_cases hc1 : 1 ≤ c
        · have : c ≤ 2 * n - 1 := by omega
          simp [hpar, hc1, this]
        · simp [hc1]
      · simp [hpar])
  rw [length_filter_range_even_pos] at hupd
  omega

/-! ### Candidate walls on the initial grid -/

/-- The shape of every wall the candidate list can contain: an interior wall
with exactly one odd coordinate (horizontal-edge walls have odd `x`, even `y`;
vertical-edge walls have even `x`, odd `y`). -/
def wallCand (w h : Nat) (c : Cell) : Prop :=
  (c.x % 2 = 1 ∧ c.x ≤ 2 * w - 1 ∧ c.y % 2 = 0 ∧ 1 ≤ c.y ∧ c.y ≤ 2 * h - 1) ∨
  (c.x % 2 = 0 ∧ 1 ≤ c.x ∧ c.x ≤ 2 * w - 1 ∧ c.y % 2 = 1 ∧ c.y ≤ 2 * h - 1)

theorem is_wall_removable_initMaze (w h : Nat) (c : Cell)
    (hx : c.x < 2 * w + 1) (hy : c.y < 2 * h + 1) :
    is_wall_removable (2 * w + 1) (2 * h + 1) (initMaze w h) c = true ↔ wallCand w h c := by
  unfold is_wall_removable wallCand
  simp only [getCell_initMaze, CELL_PASSAGE, CELL_WALL]
  split_ifs <;> simp_all <;> omega

theorem mem_buildCandidates_init (w h : Nat) (c : Cell) :
    c ∈ buildCandidates (2 * w + 1) (2 * h + 1) (initMaze w h) ↔ wallCand w h c := by
  unfold buildCandidates
  rw [List.mem_filter, mem_allCells]
  constructor
  · rintro ⟨⟨hx, hy⟩, hrem⟩
    exact (is_wall_removable_initMaze w h c hx hy).mp hrem
  · intro hcand
    have hx : c.x < 2 * w + 1 := by
      rcases hcand with ⟨-, hb, -⟩ | ⟨-, -, hb, -⟩ <;> omega
    have hy : c.y < 2 * h + 1 := by
      rcases hcand with ⟨-, -, -, -, hb⟩ | ⟨-, -, -, -, hb⟩ <;> omega
    exact ⟨⟨hx, hy⟩, (is_wall_removable_initMaze w h c hx hy).mpr hcand⟩

theorem nodup_buildCandidates (mw mh : Nat) (m : List (List Nat)) :
    (buildCandidates mw mh m).Nodup :=
  List.Nodup.filter _ (nodup_allCells mw mh)

theorem length_buildCandidates_init (w h : Nat) (hw : 1 ≤ w) (hh : 1 ≤ h) :
    (buildCandidates (2 * w + 1) (2 * h + 1) (initMaze w h)).length + w + h = 2 * (w * h) := by
  have hcong : buildCandidates (2 * w + 1) (2 * h + 1) (initMaze w h) =
      (allCells (2 * w + 1) (2 * h + 1)).filter
        (fun c => ((fun x => decide (x % 2 = 1)) c.x &&
            (fun y => decide (y % 2 = 0 ∧ 1 ≤ y ∧ y ≤ 2 * h - 1)) c.y) ||
          ((fun x => decide (x % 2 = 0 ∧ 1 ≤ x ∧ x ≤ 2 * w - 1)) c.x &&
            (fun y => decide (y % 2 = 1)) c.y)) := by
    unfold buildCandidates
    apply List.filter_congr
    intro c hc
    rw [mem_allCells] at hc
    rw [Bool.eq_iff_iff, is_wall_removable_initMaze w h c hc.1 hc.2]
    simp only [Bool.or_eq_true, Bool.and_eq_true, decide_eq_true_eq]
    unfold wallCand
    have hx := hc.1
    have hy := hc.2
    constructor
    · intro ha
      omega
    · intro hb
      omega
  rw [hcong, length_filter_or_disjoint]
  · have hprod1 := length_filter_allCells_prod (2 * w + 1) (2 * h + 1)
      (fun x => decide (x % 2 = 1)) (fun y => decide (y % 2 = 0 ∧ 1 ≤ y ∧ y ≤ 2 * h - 1))
    have hprod2 := length_filter_allCells_prod (2 * w + 1) (2 * h + 1)
      (fun x => decide (x % 2 = 0 ∧ 1 ≤ x ∧ x ≤ 2 * w - 1)) (fun y => decide (y % 2 = 1))
    rw [hprod1, hprod2, length_filter_range_odd w, length_filter_range_odd h,
      length_filter_range_even_interior h hh, length_filter_range_even_interior w hw]
    obtain ⟨w0, rfl⟩ : ∃ w0, w = w0 + 1 := ⟨w - 1, by omega⟩
    obtain ⟨h0, rfl⟩ : ∃ h0, h = h0 + 1 := ⟨h - 1, by omega⟩
    simp only [Nat.add_sub_cancel]
    ring
  · intro c _
    rintro ⟨hc1, hc2⟩
    rw [Bool.and_eq_true_iff] at hc1 hc2
    have := hc1.1
    have := hc2.1
    simp only [decide_eq_true_eq] at *
    omega

/-! ### Disjoint-set and candidate-list step lemmas -/

theorem find_some (d : DisjointSet) (c : Cell) (h1 : c.x % 2 = 1) (h2 : c.y % 2 = 1)
    (h3 : c.x / 2 < d.width) (h4 : c.y / 2 < d.height) :
    d.find c = some (d.rep (c.y / 2 * d.width + c.x / 2)) := by
  unfold DisjointSet.find DisjointSet.logical
  rw [if_pos ⟨h1, h2, h3, h4⟩]
  rfl

theorem union_of_find_ne (d : DisjointSet) (c1 c2 : Cell) (r1 r2 : Nat)
    (h1 : d.find c1 = some r1) (h2 : d.find c2 = some r2) (hne : r1 ≠ r2) :
    ∃ d2, d.union c1 c2 = some (d2, true) ∧ d2.width = d.width ∧ d2.height = d.height ∧
      d2.set_count = d.set_count - 1 := by
  unfold DisjointSet.union
  rw [h1, h2]
  simp only [if_neg hne]
  exact ⟨_, rfl, rfl, rfl, rfl⟩

theorem mem_of_mem_eraseIdx {α : Type} {l : List α} {i : Nat} {a : α}
    (h : a ∈ l.eraseIdx i) : a ∈ l :=
  List.Sublist.mem h (List.eraseIdx_sublist l i)

theorem getD_not_mem_eraseIdx {α : Type} (l : List α) (i : Nat) (d : α)
    (hnd : l.Nodup) (hi : i < l.length) : l.getD i d ∉ l.eraseIdx i := by
  induction l generalizing i with
  | nil => cases hi
  | cons a t ih =>
    rw [List.nodup_cons] at hnd
    cases i with
    | zero =>
      simpa using hnd.1
    | succ j =>
      have hj : j < t.length := by simpa using hi
      rw [List.eraseIdx_cons_succ]
      intro hmem
      rcases List.mem_cons.mp hmem with heq | hmem2
      · have : t.getD j d ∈ t := by
          rw [List.getD_eq_getElem t d hj]
          exact List.getElem_mem hj
        rw [List.getD_cons_succ] at heq
        exact hnd.1 (heq ▸ this)
      · rw [List.getD_cons_succ] at hmem2
        exact ih j hnd.2 hj hmem2

/-- The invariant the generation loop preserves, for logical size `w x h`. -/
structure LoopInv (w h : Nat) (s : KruskalMaze) : Prop where
  mw : s.maze_width = 2 * w + 1
  mh : s.maze_height = 2 * h + 1
  rows : s.maze.length = 2 * h + 1
  cols : ∀ row ∈ s.maze, row.length = 2 * w + 1
  dsw : s.disjoint_set.width = w
  dsh : s.disjoint_set.height = h
  scsum : s.disjoint_set.set_count + s.events = w * h
  scpos : 1 ≤ s.disjoint_set.set_count
  wallsum : s.removable_walls.length + s.events + w + h = 2 * (w * h)
  nodupw : s.removable_walls.Nodup
  wcand : ∀ c ∈ s.removable_walls, wallCand w h c ∧ getCell s.maze c.x c.y = CELL_WALL
  oddodd : ∀ x y : Nat, x % 2 = 1 → y % 2 = 1 → x < 2 * w + 1 → y < 2 * h + 1 →
    getCell s.maze x y = CELL_PASSAGE
  border : ∀ x y : Nat, (x = 0 ∨ x = 2 * w ∨ y = 0 ∨ y = 2 * h) →
    getCell s.maze x y = CELL_WALL
  conv : convertedPassages (2 * w + 1) (2 * h + 1) s.maze = s.events

theorem inv_initState (w h : Nat) (hw : 1 ≤ w) (hh : 1 ≤ h) : LoopInv w h (initState w h) := by
  refine ⟨rfl, rfl, initMaze_length w h, initMaze_row_length w h, rfl, rfl, ?_, ?_, ?_, ?_,
    ?_, ?_, ?_, ?_⟩
  · simp [initState, DisjointSet.init]
  · show 1 ≤ w * h
    exact Nat.mul_pos hw hh
  · have := length_buildCandidates_init w h hw hh
    simpa [initState] using this
  · exact nodup_buildCandidates _ _ _
  · intro c hc
    rw [show (initState w h).removable_walls =
      buildCandidates (2 * w + 1) (2 * h + 1) (initMaze w h) from rfl,
      mem_buildCandidates_init] at hc
    refine ⟨hc, ?_⟩
    rw [show (initState w h).maze = initMaze w h from rfl, getCell_initMaze]
    rw [if_neg]
    intro hcon
    unfold wallCand at hc
    omega
  · intro x y h1 h2 h3 h4
    rw [show (initState w h).maze = initMaze w h from rfl, getCell_initMaze,
      if_pos ⟨h1, h2, h3, h4⟩]
  · intro x y hb
    rw [show (initState w h).maze = initMaze w h from rfl, getCell_initMaze]
    rw [if_neg]
    intro hcon
    omega
  · rw [show (initState w h).maze = initMaze w h from rfl,
      show (initState w h).events = 0 from rfl]
    unfold convertedPassages
    rw [List.length_eq_zero]
    rw [List.filter_eq_nil_iff]
    intro c hc
    rw [mem_allCells] at hc
    rw [getCell_initMaze]
    by_cases hp : c.x % 2 = 1 ∧ c.y % 2 = 1
    · simp [hp]
    · rw [if_neg (by tauto)]
      simp [CELL_WALL, CELL_PASSAGE]

theorem sampledIndex_lt (rand : Nat → Nat) (s : KruskalMaze)
    (hne : s.removable_walls ≠ []) : sampledIndex rand s < s.removable_walls.length := by
  unfold sampledIndex randint
  have hlen : 0 < s.removable_walls.length := List.length_pos.mpr hne
  have hrw : s.removable_walls.length - 1 - 0 + 1 = s.removable_walls.length := by omega
  rw [hrw]
  simpa using Nat.mod_lt _ hlen

theorem sampledWall_mem (rand : Nat → Nat) (s : KruskalMaze)
    (hne : s.removable_walls ≠ []) : sampledWall rand s ∈ s.removable_walls := by
  unfold sampledWall
  rw [List.getD_eq_getElem _ _ (sampledIndex_lt rand s hne)]
  exact List.getElem_mem _

theorem cell_ne_coord {c d : Cell} (h : c ≠ d) : c.x ≠ d.x ∨ c.y ≠ d.y := by
  by_contra hcon
  push_neg at hcon
  apply h
  cases c
  cases d
  simp_all

theorem wallCand_bounds {w h : Nat} {c : Cell} (hc : wallCand w h c) :
    1 ≤ c.x ∧ c.x ≤ 2 * w - 1 ∧ 1 ≤ c.y ∧ c.y ≤ 2 * h - 1 ∧
      ¬(c.x % 2 = 1 ∧ c.y % 2 = 1) := by
  unfold wallCand at hc
  omega

theorem loopGuard_true_iff (s : KruskalMaze) :
    loopGuard s = true ↔ 1 < s.disjoint_set.set_count ∧ s.removable_walls ≠ [] := by
  unfold loopGuard
  rw [Bool.and_eq_true]
  constructor
  · rintro ⟨h1, h2⟩
    refine ⟨of_decide_eq_true h1, ?_⟩
    intro hcon
    rw [hcon] at h2
    simp at h2
  · rintro ⟨h1, h2⟩
    refine ⟨decide_eq_true h1, ?_⟩
    rw [Bool.not_eq_true']
    rw [List.isEmpty_eq_false]
    exact h2

theorem loopStep_sound (w h : Nat) (hw : 1 ≤ w) (hh : 1 ≤ h) (rand : Nat → Nat)
    (s : KruskalMaze) (hinv : LoopInv w h s) (hg : loopGuard s = true) :
    loopStep rand s ≠ StepOut.crash ∧
      ∀ s2, loopStep rand s = StepOut.next s2 → LoopInv w h s2 := by
  obtain ⟨hsc, hne⟩ := (loopGuard_true_iff s).mp hg
  have hidx := sampledIndex_lt rand s hne
  have hmem := sampledWall_mem rand s hne
  obtain ⟨hwc, hwall⟩ := hinv.wcand _ hmem
  set wall := sampledWall rand s with hwalldef
  obtain ⟨hbx1, hbx2, hby1, hby2, hbno⟩ := wallCand_bounds hwc
  -- both derived cells have a representative
  have hfind1 : ∃ r, s.disjoint_set.find (stepCell1 rand s) = some r := by
    rcases hwc with ⟨hx1, hx2, hy0, hy1, hy2⟩ | ⟨hx0, hx1, hx2, hy1, hy2⟩
    · have hc1eq : stepCell1 rand s = Cell.mk wall.x (wall.y - 1) := by
        unfold stepCell1
        rw [← hwalldef, if_pos hx1]
      rw [hc1eq]
      exact ⟨_, find_some _ _ hx1 (by simp; omega) (by rw [hinv.dsw]; simp; omega)
        (by rw [hinv.dsh]; simp; omega)⟩
    · have hc1eq : stepCell1 rand s = Cell.mk (wall.x - 1) wall.y := by
        unfold stepCell1
        rw [← hwalldef, if_neg (by omega)]
      rw [hc1eq]
      exact ⟨_, find_some _ _ (by simp; omega) hy1 (by rw [hinv.dsw]; simp; omega)
        (by rw [hinv.dsh]; simp; omega)⟩
  have hfind2 : ∃ r, s.disjoint_set.find (stepCell2 rand s) = some r := by
    rcases hwc with ⟨hx1, hx2, hy0, hy1, hy2⟩ | ⟨hx0, hx1, hx2, hy1, hy2⟩
    · have hc2eq : stepCell2 rand s = Cell.mk wall.x (wall.y + 1) := by
        unfold stepCell2
        rw [← hwalldef, if_pos hx1]
      rw [hc2eq]
      exact ⟨_, find_some _ _ hx1 (by simp; omega) (by rw [hinv.dsw]; simp; omega)
        (by rw [hinv.dsh]; simp; omega)⟩
    · have hc2eq : stepCell2 rand s = Cell.mk (wall.x + 1) wall.y := by
        unfold stepCell2
        rw [← hwalldef, if_neg (by omega)]
      rw [hc2eq]
      exact ⟨_, find_some _ _ (by simp; omega) hy1 (by rw [hinv.dsw]; simp; omega)
        (by rw [hinv.dsh]; simp; omega)⟩
  obtain ⟨r1, hf1⟩ := hfind1
  obtain ⟨r2, hf2⟩ := hfind2
  -- facts about the maze update at the sampled wall
  have hylen : wall.y < s.maze.length := by rw [hinv.rows]; omega
  have hxlen : wall.x < (s.maze.getD wall.y []).length := by
    have hrow : (s.maze.getD wall.y []) ∈ s.maze := by
      rw [List.getD_eq_getElem _ _ hylen]
      exact List.getElem_mem hylen
    rw [hinv.cols _ hrow]
    omega
  have hwl : wall ∈ allCells (2 * w + 1) (2 * h + 1) := by
    rw [mem_allCells]
    omega
  have hif : loopStep rand s =
      (if r1 = r2 then
        StepOut.next { s with k := s.k + 1 }
      else
        match s.disjoint_set.union (stepCell1 rand s) (stepCell2 rand s) with
        | some du => StepOut.next { s with
            maze := setCell s.maze (sampledWall rand s).x (sampledWall rand s).y CELL_PASSAGE,
            disjoint_set := du.1,
            removable_walls := s.removable_walls.eraseIdx (sampledIndex rand s),
            events := s.events + 1, k := s.k + 1 }
        | none => StepOut.crash) := by
    simp only [loopStep]
    rw [hf1, hf2]
  rw [hif, ← hwalldef]
  by_cases hr : r1 = r2
  · rw [if_pos hr]
    refine ⟨fun hcon => StepOut.noConfusion hcon, ?_⟩
    intro s2 heq
    cases heq
    exact ⟨hinv.mw, hinv.mh, hinv.rows, hinv.cols, hinv.dsw, hinv.dsh, hinv.scsum,
      hinv.scpos, hinv.wallsum, hinv.nodupw, hinv.wcand, hinv.oddodd, hinv.border, hinv.conv⟩
  · rw [if_neg hr]
    obtain ⟨d2, hu, hdw, hdh, hdc⟩ := union_of_find_ne _ _ _ _ _ hf1 hf2 hr
    rw [hu]
    show StepOut.next { s with
        maze := setCell s.maze wall.x wall.y CELL_PASSAGE,
        disjoint_set := d2,
        removable_walls := s.removable_walls.eraseIdx (sampledIndex rand s),
        events := s.events + 1, k := s.k + 1 } ≠ StepOut.crash ∧
      ∀ s2, StepOut.next { s with
        maze := setCell s.maze wall.x wall.y CELL_PASSAGE,
        disjoint_set := d2,
        removable_walls := s.removable_walls.eraseIdx (sampledIndex rand s),
        events := s.events + 1, k := s.k + 1 } = StepOut.next s2 → LoopInv w h s2
    refine ⟨fun hcon => StepOut.noConfusion hcon, ?_⟩
    intro s2 heq
    cases heq
    have hnewodd : ∀ x y : Nat, x % 2 = 1 → y % 2 = 1 → x < 2 * w + 1 → y < 2 * h + 1 →
        getCell (setCell s.maze wall.x wall.y CELL_PASSAGE) x y = CELL_PASSAGE := by
      intro x y h1 h2 h3 h4
      rw [getCell_setCell_of_ne _ _ _ _ _ _ (by omega)]
      exact hinv.oddodd x y h1 h2 h3 h4
    refine ⟨hinv.mw, hinv.mh, ?_, ?_, ?_, ?_, ?_, ?_, ?_, ?_, ?_, hnewodd, ?_, ?_⟩
    · rw [setCell_length]
      exact hinv.rows
    · exact setCell_row_length _ _ _ _ _ hinv.cols hylen
    · rw [hdw]
      exact hinv.dsw
    · rw [hdh]
      exact hinv.dsh
    · have := hinv.scsum
      simp only [hdc]
      omega
    · simp only [hdc]
      omega
    · have hlen2 : (s.removable_walls.eraseIdx (sampledIndex rand s)).length =
        s.removable_walls.length - 1 := List.length_eraseIdx_of_lt hidx
      have := hinv.wallsum
      simp only [hlen2]
      omega
    · exact List.Nodup.eraseIdx _ hinv.nodupw
    · intro c hc
      have hcmem := mem_of_mem_eraseIdx hc
      obtain ⟨hcand, hcwall⟩ := hinv.wcand _ hcmem
      refine ⟨hcand, ?_⟩
      have hcne : c ≠ wall := by
        intro hcon
        subst hcon
        exact getD_not_mem_eraseIdx _ _ _ hinv.nodupw hidx (hwalldef ▸ hc)
      rw [getCell_setCell_of_ne _ _ _ _ _ _ (cell_ne_coord hcne)]
      exact hcwall
    · intro x y hb
      rw [getCell_setCell_of_ne _ _ _ _ _ _ (by omega)]
      exact hinv.border x y hb
    · show convertedPassages (2 * w + 1) (2 * h + 1)
        (setCell s.maze wall.x wall.y CELL_PASSAGE) = s.events + 1
      unfold convertedPassages
      rw [filter_length_succ_of_update (allCells (2 * w + 1) (2 * h + 1))
        (fun c => !decide (c.x % 2 = 1 ∧ c.y % 2 = 1) &&
          decide (getCell s.maze c.x c.y = CELL_PASSAGE))
        (fun c => !decide (c.x % 2 = 1 ∧ c.y % 2 = 1) &&
          decide (getCell (setCell s.maze wall.x wall.y CELL_PASSAGE) c.x c.y = CELL_PASSAGE))
        wall (nodup_allCells _ _) hwl ?_ ?_ ?_]
      · have := hinv.conv
        unfold convertedPassages at this
        omega
      · rw [Bool.and_eq_false_iff]
        right
        rw [decide_eq_false_iff_not, hwall]
        simp [CELL_WALL, CELL_PASSAGE]
      · rw [Bool.and_eq_true]
        constructor
        · simp only [Bool.not_eq_true']
          rw [decide_eq_false_iff_not]
          exact hbno
        · rw [decide_eq_true_eq]
          exact getCell_setCell_self _ _ _ _ hylen hxlen
      · intro c _ hcne
        show (!decide (c.x % 2 = 1 ∧ c.y % 2 = 1) &&
            decide (getCell (setCell s.maze wall.x wall.y CELL_PASSAGE) c.x c.y = CELL_PASSAGE)) =
          (!decide (c.x % 2 = 1 ∧ c.y % 2 = 1) &&
            decide (getCell s.maze c.x c.y = CELL_PASSAGE))
        rw [getCell_setCell_of_ne _ _ _ _ _ _ (cell_ne_coord hcne)]

theorem runLoop_sound (w h : Nat) (hw : 1 ≤ w) (hh : 1 ≤ h) (rand : Nat → Nat) :
    ∀ (fuel : Nat) (s : KruskalMaze), LoopInv w h s →
      runLoop rand fuel s ≠ RunOut.crash ∧
      (∀ s2, runLoop rand fuel s = RunOut.finished s2 → LoopInv w h s2 ∧ loopGuard s2 = false) ∧
      (∀ s2, runLoop rand fuel s = RunOut.outOfFuel s2 → LoopInv w h s2) := by
  intro fuel
  induction fuel with
  | zero =>
    intro s hinv
    cases hguard : loopGuard s
    · refine ⟨?_, ?_, ?_⟩
      · simp [runLoop, hguard]
      · intro s2 heq
        simp only [runLoop, hguard, Bool.false_eq_true, if_neg] at heq
        simp only [if_false] at heq
        cases heq
        exact ⟨hinv, hguard⟩
      · intro s2 heq
        simp [runLoop, hguard] at heq
    · refine ⟨?_, ?_, ?_⟩
      · simp [runLoop, hguard]
      · intro s2 heq
        simp [runLoop, hguard] at heq
      · intro s2 heq
        simp only [runLoop, hguard, if_true] at heq
        cases heq
        exact hinv
  | succ n ih =>
    intro s hinv
    cases hguard : loopGuard s
    · refine ⟨?_, ?_, ?_⟩
      · simp [runLoop, hguard]
      · intro s2 heq
        simp only [runLoop, hguard, Bool.false_eq_true, if_false] at heq
        cases heq
        exact ⟨hinv, hguard⟩
      · intro s2 heq
        simp [runLoop, hguard] at heq
    · obtain ⟨hnc, hnext⟩ := loopStep_sound w h hw hh rand s hinv hguard
      cases hstep : loopStep rand s with
      | crash => exact absurd hstep hnc
      | next s1 =>
        have hinv1 := hnext s1 hstep
        have hrec := ih s1 hinv1
        refine ⟨?_, ?_, ?_⟩
        · simp only [runLoop, hguard, if_true, hstep]
          exact hrec.1
        · intro s2 heq
          simp only [runLoop, hguard, if_true, hstep] at heq
          exact hrec.2.1 s2 heq
        · intro s2 heq
          simp only [runLoop, hguard, if_true, hstep] at heq
          exact hrec.2.2 s2 heq

theorem guard_false_set_count (w h : Nat) (hw : 1 ≤ w) (hh : 1 ≤ h) (s : KruskalMaze)
    (hinv : LoopInv w h s) (hg : loopGuard s = false) :
    s.disjoint_set.set_count = 1 := by
  have hkey : w + h ≤ w * h + 1 := by
    obtain ⟨w0, rfl⟩ : ∃ w0, w = w0 + 1 := ⟨w - 1, by omega⟩
    obtain ⟨h0, rfl⟩ : ∃ h0, h = h0 + 1 := ⟨h - 1, by omega⟩
    have hexp : (w0 + 1) * (h0 + 1) + 1 = w0 * h0 + (w0 + 1 + (h0 + 1)) := by ring
    rw [hexp]
    exact Nat.le_add_left _ _
  have hscsum := hinv.scsum
  have hwallsum := hinv.wallsum
  have hscpos := hinv.scpos
  unfold loopGuard at hg
  rw [Bool.and_eq_false_iff] at hg
  rcases hg with hsc | hemp
  · rw [decide_eq_false_iff_not] at hsc
    omega
  · rw [Bool.not_eq_false'] at hemp
    rw [List.isEmpty_iff] at hemp
    rw [hemp] at hwallsum
    simp only [List.length_nil] at hwallsum
    generalize hP : w * h = P at hscsum hwallsum hkey
    omega

theorem oddOddPassages_of_inv (w h : Nat) (s : KruskalMaze) (hinv : LoopInv w h s) :
    oddOddPassages (2 * w + 1) (2 * h + 1) s.maze = w * h := by
  unfold oddOddPassages
  have hcong : (allCells (2 * w + 1) (2 * h + 1)).filter
      (fun c => decide (c.x % 2 = 1 ∧ c.y % 2 = 1) &&
        decide (getCell s.maze c.x c.y = CELL_PASSAGE)) =
      (allCells (2 * w + 1) (2 * h + 1)).filter
      (fun c => (fun x => decide (x % 2 = 1)) c.x && (fun y => decide (y % 2 = 1)) c.y) := by
    apply List.filter_congr
    intro c hc
    rw [mem_allCells] at hc
    rw [Bool.eq_iff_iff]
    simp only [Bool.and_eq_true, decide_eq_true_eq]
    constructor
    · rintro ⟨⟨h1, h2⟩, -⟩
      exact ⟨h1, h2⟩
    · rintro ⟨h1, h2⟩
      exact ⟨⟨h1, h2⟩, hinv.oddodd c.x c.y h1 h2 hc.1 hc.2⟩
  rw [hcong, length_filter_allCells_prod (2 * w + 1) (2 * h + 1)
    (fun x => decide (x % 2 = 1)) (fun y => decide (y % 2 = 1)),
    length_filter_range_odd w, length_filter_range_odd h]

theorem randint_bounds (rand : Nat → Nat) (k a b : Nat) (hab : a ≤ b) :
    a ≤ randint rand k a b ∧ randint rand k a b ≤ b := by
  unfold randint
  have hpos : 0 < b - a + 1 := by omega
  have := Nat.mod_lt (rand k) hpos
  omega

theorem pickCell_spec (mw mh : Nat) (rand : Nat → Nat) (good : Cell → Bool) :
    ∀ (fuel k : Nat) (c : Cell) (k2 : Nat),
      pickCell mw mh rand good fuel k = some (c, k2) →
      good c = true ∧ ∃ k0, c = Cell.mk (randint rand k0 1 (mw - 2))
        (randint rand (k0 + 1) 1 (mh - 2)) := by
  intro fuel
  induction fuel with
  | zero =>
    intro k c k2 hpick
    cases hpick
  | succ n ih =>
    intro k c k2 hpick
    simp only [pickCell] at hpick
    by_cases hgood : good (Cell.mk (randint rand k 1 (mw - 2)) (randint rand (k + 1) 1 (mh - 2))) = true
    · rw [if_pos hgood] at hpick
      cases hpick
      exact ⟨hgood, k, rfl⟩
    · rw [if_neg hgood] at hpick
      exact ih (k + 2) c k2 hpick

theorem markStartEnd_spec (mw mh : Nat) (m : List (List Nat)) (rand : Nat → Nat)
    (k fuel : Nat) (st en : Cell) (hmw : 3 ≤ mw) (hmh : 3 ≤ mh)
    (hmark : markStartEnd mw mh m rand k fuel = some (st, en)) :
    getCell m st.x st.y = CELL_PASSAGE ∧ getCell m en.x en.y = CELL_PASSAGE ∧ st ≠ en ∧
      (1 ≤ st.x ∧ st.x ≤ mw - 2 ∧ 1 ≤ st.y ∧ st.y ≤ mh - 2) ∧
      (1 ≤ en.x ∧ en.x ≤ mw - 2 ∧ 1 ≤ en.y ∧ en.y ≤ mh - 2) := by
  unfold markStartEnd at hmark
  split at hmark
  · cases hmark
  · rename_i st1 k1 hp1
    split at hmark
    · cases hmark
    · rename_i en1 k2 hp2
      cases hmark
      obtain ⟨hg1, k0, hc0⟩ := pickCell_spec mw mh rand _ fuel k st k1 hp1
      obtain ⟨hg2, k3, hc3⟩ := pickCell_spec mw mh rand _ fuel k1 en k2 hp2
      rw [decide_eq_true_eq] at hg1
      rw [Bool.and_eq_true] at hg2
      obtain ⟨hg2p, hg2ne⟩ := hg2
      rw [decide_eq_true_eq] at hg2p
      have hstb := randint_bounds rand k0 1 (mw - 2) (by omega)
      have hstb2 := randint_bounds rand (k0 + 1) 1 (mh - 2) (by omega)
      have henb := randint_bounds rand k3 1 (mw - 2) (by omega)
      have henb2 := randint_bounds rand (k3 + 1) 1 (mh - 2) (by omega)
      refine ⟨hg1, hg2p, ?_, ?_, ?_⟩
      · intro hcon
        subst hcon
        simp at hg2ne
      · rw [hc0]
        exact ⟨hstb.1, hstb.2, hstb2.1, hstb2.2⟩
      · rw [hc3]
        exact ⟨henb.1, henb.2, henb2.1, henb2.2⟩


/-! ### Start/end selection on the 1 x 1 maze -/

theorem randint_one_one (rand : Nat → Nat) (k : Nat) : randint rand k 1 1 = 1 := by
  unfold randint
  simp [Nat.mod_one]

theorem markStartEnd_one_one_none (rand : Nat → Nat) (k fuel : Nat) :
    markStartEnd 3 3 (initMaze 1 1) rand k fuel = none := by
  cases fuel with
  | zero => rfl
  | succ n =>
    have hone : ∀ j, randint rand j 1 (3 - 2) = 1 := fun j => randint_one_one rand j
    have hstart : pickCell 3 3 rand
        (fun c => decide (getCell (initMaze 1 1) c.x c.y = CELL_PASSAGE)) (n + 1) k =
        some (Cell.mk 1 1, k + 2) := by
      simp only [pickCell, hone]
      rw [if_pos (by decide)]
    have hend : ∀ (f k2 : Nat), pickCell 3 3 rand
        (fun c => decide (getCell (initMaze 1 1) c.x c.y = CELL_PASSAGE) &&
          !((Cell.mk 1 1).x = c.x && (Cell.mk 1 1).y = c.y)) f k2 = none := by
      intro f
      induction f with
      | zero => intro k2; rfl
      | succ m ih =>
        intro k2
        simp only [pickCell, hone]
        rw [if_neg (by decide)]
        exact ih (k2 + 2)
    unfold markStartEnd
    split
    · rfl
    · rename_i st1 k1 heq
      rw [hstart] at heq
      injection heq with hpair
      injection hpair with hst hk
      subst hst
      subst hk
      rw [hend]

/-! ### Claim theorems -/

/-- C1: for every valid input (width ≥ 1, height ≥ 1), when the generation
loop of `generate_maze_kruskal` terminates by exiting its guard, the disjoint
set's `set_count` equals 1: all `width * height` logical cells form a single
component. -/
theorem C1_generate_single_component (w h : Nat) (hw : 1 ≤ w) (hh : 1 ≤ h)
    (rand : Nat → Nat) (fuel : Nat) (s2 : KruskalMaze)
    (hrun : runLoop rand fuel (initState w h) = RunOut.finished s2) :
    s2.disjoint_set.set_count = 1 := by
  obtain ⟨hinv2, hg⟩ := (runLoop_sound w h hw hh rand fuel (initState w h)
    (inv_initState w h hw hh)).2.1 s2 hrun
  exact guard_false_set_count w h hw hh s2 hinv2 hg

/-- C1 witness: a concrete completed 2 x 1 run. -/
theorem C1_generate_single_component_witness :
    (runState (runLoop (fun _ => 0) 9 (initState 2 1))).disjoint_set.set_count = 1 :=
  C1_generate_single_component 2 1 (by decide) (by decide) (fun _ => 0) 9 _ rfl

/-- C2: a completed run performs exactly `width * height - 1` wall removals
(successful unions), and the final grid holds exactly `width * height` Passage
cells at odd/odd coordinates plus exactly `width * height - 1` Passage cells
converted from walls, and no others. -/
theorem C2_event_and_passage_counts (w h : Nat) (hw : 1 ≤ w) (hh : 1 ≤ h)
    (rand : Nat → Nat) (fuel : Nat) (s2 : KruskalMaze)
    (hrun : runLoop rand fuel (initState w h) = RunOut.finished s2) :
    s2.events = w * h - 1 ∧
      oddOddPassages (2 * w + 1) (2 * h + 1) s2.maze = w * h ∧
      convertedPassages (2 * w + 1) (2 * h + 1) s2.maze = w * h - 1 := by
  obtain ⟨hinv2, hg⟩ := (runLoop_sound w h hw hh rand fuel (initState w h)
    (inv_initState w h hw hh)).2.1 s2 hrun
  have hsc := guard_false_set_count w h hw hh s2 hinv2 hg
  have hev : s2.events = w * h - 1 := by
    have := hinv2.scsum
    omega
  refine ⟨hev, oddOddPassages_of_inv w h s2 hinv2, ?_⟩
  rw [hinv2.conv]
  exact hev

/-- C2 witness: the concrete completed 2 x 1 run has 1 wall-removed event,
2 odd/odd passages, and 1 converted passage. -/
theorem C2_event_and_passage_counts_witness :
    (runState (runLoop (fun _ => 0) 9 (initState 2 1))).events = 2 * 1 - 1 ∧
      oddOddPassages (2 * 2 + 1) (2 * 1 + 1)
        (runState (runLoop (fun _ => 0) 9 (initState 2 1))).maze = 2 * 1 ∧
      convertedPassages (2 * 2 + 1) (2 * 1 + 1)
        (runState (runLoop (fun _ => 0) 9 (initState 2 1))).maze = 2 * 1 - 1 :=
  C2_event_and_passage_counts 2 1 (by decide) (by decide) (fun _ => 0) 9 _ rfl

/-- C3 counterexample: a reachable iteration of a 3 x 2 run (three steps of the
stream `crandC3`, loop guard still true) samples a wall whose two sides are
already connected, and after that iteration the candidate list is unchanged:
the sampled wall is still in the collection, contradicting the claim that the
candidate is deleted even when the union reports the cells connected. -/
theorem C3_failed_union_keeps_candidate_counterexample :
    loopGuard (runState (runLoop crandC3 3 (initState 3 2))) = true ∧
      (runState (runLoop crandC3 3 (initState 3 2))).disjoint_set.find
          (stepCell1 crandC3 (runState (runLoop crandC3 3 (initState 3 2)))) =
        (runState (runLoop crandC3 3 (initState 3 2))).disjoint_set.find
          (stepCell2 crandC3 (runState (runLoop crandC3 3 (initState 3 2)))) ∧
      (stepState (loopStep crandC3 (runState (runLoop crandC3 3 (initState 3 2))))).removable_walls =
        (runState (runLoop crandC3 3 (initState 3 2))).removable_walls ∧
      sampledWall crandC3 (runState (runLoop crandC3 3 (initState 3 2))) ∈
        (stepState (loopStep crandC3 (runState (runLoop crandC3 3 (initState 3 2))))).removable_walls := by
  refine ⟨by decide, by decide, by decide, by decide⟩

/-- C3 amended: in an iteration of the generation loop, the sampled wall is
removed from the candidate list exactly when the union check succeeds; when
the two cells are already connected the list is unchanged (only the stream
position advances). -/
theorem C3_candidate_removed_iff_union_succeeds (rand : Nat → Nat)
    (s s2 : KruskalMaze) (hstep : loopStep rand s = StepOut.next s2) :
    (s.disjoint_set.find (stepCell1 rand s) = s.disjoint_set.find (stepCell2 rand s) →
      s2.removable_walls = s.removable_walls) ∧
    (s.disjoint_set.find (stepCell1 rand s) ≠ s.disjoint_set.find (stepCell2 rand s) →
      s2.removable_walls = s.removable_walls.eraseIdx (sampledIndex rand s)) := by
  simp only [loopStep] at hstep
  split at hstep
  · rename_i r1 r2 heq1 heq2
    split at hstep
    · rename_i hr
      cases hstep
      constructor
      · intro _
        rfl
      · intro hne
        exfalso
        apply hne
        rw [heq1, heq2, hr]
    · rename_i hr
      split at hstep
      · rename_i du hu
        cases hstep
        constructor
        · intro hsame
          exfalso
          apply hr
          rw [heq1, heq2] at hsame
          exact Option.some.inj hsame
        · intro _
          rfl
      · cases hstep
  · cases hstep

/-- C3 witness: at the concrete reachable failed-union state, applying the
amended theorem yields that the candidate list is unchanged. -/
theorem C3_candidate_removed_iff_union_succeeds_witness :
    (stepState (loopStep crandC3 (runState (runLoop crandC3 3 (initState 3 2))))).removable_walls =
      (runState (runLoop crandC3 3 (initState 3 2))).removable_walls :=
  (C3_candidate_removed_iff_union_succeeds crandC3
    (runState (runLoop crandC3 3 (initState 3 2)))
    (stepState (loopStep crandC3 (runState (runLoop crandC3 3 (initState 3 2)))))
    (by rfl)).1 (by decide)

/-- C4: initialization allocates a `(2*width+1) x (2*height+1)` grid in which
a cell `(x, y)` is Passage iff both `x` and `y` are odd, Wall otherwise. -/
theorem C4_init_grid (w h x y : Nat) (hx : x < 2 * w + 1) (hy : y < 2 * h + 1) :
    (initState w h).maze.length = 2 * h + 1 ∧
      (∀ row ∈ (initState w h).maze, row.length = 2 * w + 1) ∧
      (getCell (initState w h).maze x y = CELL_PASSAGE ↔ (x % 2 = 1 ∧ y % 2 = 1)) := by
  refine ⟨initMaze_length w h, initMaze_row_length w h, ?_⟩
  show getCell (initMaze w h) x y = CELL_PASSAGE ↔ _
  rw [getCell_initMaze]
  constructor
  · intro hp
    by_cases hc : x % 2 = 1 ∧ y % 2 = 1 ∧ x < 2 * w + 1 ∧ y < 2 * h + 1
    · exact ⟨hc.1, hc.2.1⟩
    · rw [if_neg hc] at hp
      simp [CELL_WALL, CELL_PASSAGE] at hp
  · rintro ⟨h1, h2⟩
    rw [if_pos ⟨h1, h2, hx, hy⟩]

/-- C4 witness: the 1 x 1 instance, evaluated at cell (1, 1). -/
theorem C4_init_grid_witness :
    (initState 1 1).maze.length = 2 * 1 + 1 ∧
      (getCell (initState 1 1).maze 1 1 = CELL_PASSAGE ↔ (1 % 2 = 1 ∧ 1 % 2 = 1)) :=
  ⟨(C4_init_grid 1 1 1 1 (by decide) (by decide)).1,
    (C4_init_grid 1 1 1 1 (by decide) (by decide)).2.2⟩

/-- C5 counterexample: with width = 0 (so width < 1), construction does not
fail and does build a grid: the 1 x 3 all-wall grid exists as state, so the
claim that no grid is built and construction is rejected is false. -/
theorem C5_no_validation_counterexample :
    (initState 0 1).maze = [[CELL_WALL], [CELL_WALL], [CELL_WALL]] ∧
      (initState 0 1).maze.length = 3 :=
  ⟨rfl, rfl⟩

/-- C5 amended: the constructor performs no size validation; for degenerate
sizes (width * height = 0, i.e. width < 1 or height < 1 over naturals) it
still builds the `(2*width+1) x (2*height+1)` grid, every cell of which is
Wall, and a disjoint set with `set_count = 0`; failure can only arise later. -/
theorem C5_degenerate_size_builds_all_wall_grid (w h : Nat) (hdeg : w * h = 0) :
    (initState w h).maze.length = 2 * h + 1 ∧
      (∀ x y : Nat, getCell (initState w h).maze x y = CELL_WALL) ∧
      (initState w h).disjoint_set.set_count = 0 := by
  refine ⟨initMaze_length w h, ?_, hdeg⟩
  intro x y
  show getCell (initMaze w h) x y = CELL_WALL
  rw [getCell_initMaze]
  rw [if_neg]
  intro hcon
  rcases Nat.mul_eq_zero.mp hdeg with hzero | hzero <;> omega

/-- C5 witness: the degenerate 0 x 1 instance, evaluated at cell (0, 0). -/
theorem C5_degenerate_size_builds_all_wall_grid_witness :
    (initState 0 1).maze.length = 2 * 1 + 1 ∧
      getCell (initState 0 1).maze 0 0 = CELL_WALL ∧
      (initState 0 1).disjoint_set.set_count = 0 :=
  ⟨(C5_degenerate_size_builds_all_wall_grid 0 1 (by decide)).1,
    (C5_degenerate_size_builds_all_wall_grid 0 1 (by decide)).2.1 0 0,
    (C5_degenerate_size_builds_all_wall_grid 0 1 (by decide)).2.2⟩

/-- C6: during the generation loop every cell handed to the disjoint set's
`find`/`union` is an in-range odd/odd logical cell, so the out-of-range error
branch is unreachable: the run can never produce the crash outcome. -/
theorem C6_no_out_of_range (w h : Nat) (hw : 1 ≤ w) (hh : 1 ≤ h)
    (rand : Nat → Nat) (fuel : Nat) :
    runLoop rand fuel (initState w h) ≠ RunOut.crash :=
  (runLoop_sound w h hw hh rand fuel (initState w h) (inv_initState w h hw hh)).1

/-- C6 witness: the concrete 2 x 1 run never crashes. -/
theorem C6_no_out_of_range_witness :
    runLoop (fun _ => 0) 9 (initState 2 1) ≠ RunOut.crash :=
  C6_no_out_of_range 2 1 (by decide) (by decide) (fun _ => 0) 9

/-- C7 counterexample: on a concrete completed 2 x 1 run, the selected start
cell is `(2, 1)`: a cell whose `x` is even, i.e. not an odd/odd logical cell
but a wall converted to a passage during generation, contradicting the claim
that start/end are always odd/odd logical cells and never converted walls. -/
theorem C7_start_on_converted_wall_counterexample :
    (runAll 2 1 crandC7 20).map (fun p => p.2.1) = some (Cell.mk 2 1) ∧
      ¬((Cell.mk 2 1).x % 2 = 1 ∧ (Cell.mk 2 1).y % 2 = 1) ∧
      getCell (initMaze 2 1) 2 1 = CELL_WALL := by
  refine ⟨by decide, by decide, by decide⟩

/-- C7 amended: when the whole run returns, start and end are two distinct
cells, both Passage in the final grid and both strictly inside the border
(`1 ≤ x ≤ 2*width-1`, `1 ≤ y ≤ 2*height-1`); they need not be odd/odd logical
cells and may be converted walls. -/
theorem C7_start_end_distinct_passages (w h : Nat) (hw : 1 ≤ w) (hh : 1 ≤ h)
    (rand : Nat → Nat) (fuel : Nat) (s2 : KruskalMaze) (st en : Cell)
    (hrun : runAll w h rand fuel = some (s2, st, en)) :
    st ≠ en ∧ getCell s2.maze st.x st.y = CELL_PASSAGE ∧
      getCell s2.maze en.x en.y = CELL_PASSAGE ∧
      (1 ≤ st.x ∧ st.x ≤ 2 * w - 1 ∧ 1 ≤ st.y ∧ st.y ≤ 2 * h - 1) ∧
      (1 ≤ en.x ∧ en.x ≤ 2 * w - 1 ∧ 1 ≤ en.y ∧ en.y ≤ 2 * h - 1) := by
  unfold runAll at hrun
  split at hrun
  · rename_i s3 hfin
    rw [Option.map_eq_some'] at hrun
    obtain ⟨p, hmark, hp⟩ := hrun
    obtain ⟨st1, en1⟩ := p
    injection hp with h1 h2
    injection h2 with h3 h4
    subst h1
    subst h3
    subst h4
    obtain ⟨hinv2, -⟩ := (runLoop_sound w h hw hh rand fuel (initState w h)
      (inv_initState w h hw hh)).2.1 _ hfin
    rw [hinv2.mw, hinv2.mh] at hmark
    have hmw3 : 3 ≤ 2 * w + 1 := by omega
    have hmh3 : 3 ≤ 2 * h + 1 := by omega
    obtain ⟨hps, hpe, hne, hbs, hbe⟩ := markStartEnd_spec (2 * w + 1) (2 * h + 1)
      _ rand _ fuel _ _ hmw3 hmh3 hmark
    refine ⟨hne, hps, hpe, ?_, ?_⟩
    · show 1 ≤ st1.x ∧ st1.x ≤ 2 * w - 1 ∧ 1 ≤ st1.y ∧ st1.y ≤ 2 * h - 1
      omega
    · show 1 ≤ en1.x ∧ en1.x ≤ 2 * w - 1 ∧ 1 ≤ en1.y ∧ en1.y ≤ 2 * h - 1
      omega
  · cases hrun

/-- C7 witness: the concrete completed 2 x 1 run picks the distinct passage
cells `(2, 1)` and `(1, 1)`. -/
theorem C7_start_end_distinct_passages_witness :
    Cell.mk 2 1 ≠ Cell.mk 1 1 ∧
      getCell (runState (runLoop crandC7 20 (initState 2 1))).maze
        (Cell.mk 2 1).x (Cell.mk 2 1).y = CELL_PASSAGE ∧
      getCell (runState (runLoop crandC7 20 (initState 2 1))).maze
        (Cell.mk 1 1).x (Cell.mk 1 1).y = CELL_PASSAGE ∧
      (1 ≤ (Cell.mk 2 1).x ∧ (Cell.mk 2 1).x ≤ 2 * 2 - 1 ∧
        1 ≤ (Cell.mk 2 1).y ∧ (Cell.mk 2 1).y ≤ 2 * 1 - 1) ∧
      (1 ≤ (Cell.mk 1 1).x ∧ (Cell.mk 1 1).x ≤ 2 * 2 - 1 ∧
        1 ≤ (Cell.mk 1 1).y ∧ (Cell.mk 1 1).y ≤ 2 * 1 - 1) :=
  C7_start_end_distinct_passages 2 1 (by decide) (by decide) crandC7 20
    (runState (runLoop crandC7 20 (initState 2 1))) (Cell.mk 2 1) (Cell.mk 1 1) (by rfl)

/-- C8: on the 1 x 1 maze (width * height < 2), start/end selection does not
fail with a too-small-maze condition: the end-selection retry loop can never
succeed, so the selection diverges (returns `none` for every fuel bound), and
the whole run never produces a result. -/
theorem C8_one_by_one_selection_never_returns (rand : Nat → Nat) (k fuel : Nat) :
    markStartEnd 3 3 (initMaze 1 1) rand k fuel = none ∧
      runAll 1 1 rand fuel = none := by
  refine ⟨markStartEnd_one_one_none rand k fuel, ?_⟩
  have hg : loopGuard (initState 1 1) = false := by decide
  have hfin : runLoop rand fuel (initState 1 1) = RunOut.finished (initState 1 1) := by
    cases fuel with
    | zero => simp [runLoop, hg]
    | succ n => simp [runLoop, hg]
  unfold runAll
  rw [hfin]
  show (markStartEnd 3 3 (initMaze 1 1) rand 0 fuel).map
    (fun p => (initState 1 1, p.1, p.2)) = none
  rw [markStartEnd_one_one_none]
  rfl

/-- C9: every loop iteration preserves Passage cells: the only grid mutation
converts a Wall to Passage, and no operation converts a Passage back to Wall. -/
theorem C9_passage_never_reverts (rand : Nat → Nat) (s s2 : KruskalMaze)
    (x y : Nat) (hstep : loopStep rand s = StepOut.next s2)
    (hp : getCell s.maze x y = CELL_PASSAGE) :
    getCell s2.maze x y = CELL_PASSAGE := by
  simp only [loopStep] at hstep
  split at hstep
  · rename_i r1 r2 heq1 heq2
    split at hstep
    · cases hstep
      exact hp
    · split at hstep
      · rename_i du hu
        cases hstep
        show getCell (setCell s.maze (sampledWall rand s).x (sampledWall rand s).y
          CELL_PASSAGE) x y = CELL_PASSAGE
        rcases getCell_setCell_or s.maze (sampledWall rand s).x (sampledWall rand s).y
          CELL_PASSAGE x y with hc | hc
        · rw [hc]
          exact hp
        · rw [hc]
      · cases hstep
  · cases hstep

/-- C9 witness: a passage of the initial 2 x 1 grid survives a concrete step. -/
theorem C9_passage_never_reverts_witness :
    getCell (stepState (loopStep (fun _ => 0) (initState 2 1))).maze 1 1 = CELL_PASSAGE :=
  C9_passage_never_reverts (fun _ => 0) (initState 2 1)
    (stepState (loopStep (fun _ => 0) (initState 2 1))) 1 1 (by rfl) (by decide)

/-- C10: every border cell (`x = 0`, `x = 2*width`, `y = 0` or `y = 2*height`)
is Wall after initialization and stays Wall in every state the run reaches:
only interior walls with exactly one even coordinate are candidates, so only
such cells are ever converted to Passage. -/
theorem C10_border_stays_wall (w h : Nat) (hw : 1 ≤ w) (hh : 1 ≤ h)
    (rand : Nat → Nat) (fuel : Nat) (s2 : KruskalMaze)
    (hrun : runLoop rand fuel (initState w h) = RunOut.finished s2 ∨
      runLoop rand fuel (initState w h) = RunOut.outOfFuel s2) :
    (∀ x y : Nat, (x = 0 ∨ x = 2 * w ∨ y = 0 ∨ y = 2 * h) →
        getCell (initState w h).maze x y = CELL_WALL) ∧
      ∀ x y : Nat, (x = 0 ∨ x = 2 * w ∨ y = 0 ∨ y = 2 * h) →
        getCell s2.maze x y = CELL_WALL := by
  have hsound := runLoop_sound w h hw hh rand fuel (initState w h) (inv_initState w h hw hh)
  refine ⟨(inv_initState w h hw hh).border, ?_⟩
  rcases hrun with hfin | hfuel
  · exact ((hsound.2.1 s2 hfin).1).border
  · exact (hsound.2.2 s2 hfuel).border

/-- C10 witness: the corner of the concrete completed 2 x 1 run is a wall. -/
theorem C10_border_stays_wall_witness :
    getCell (runState (runLoop (fun _ => 0) 9 (initState 2 1))).maze 0 0 = CELL_WALL :=
  (C10_border_stays_wall 2 1 (by decide) (by decide) (fun _ => 0) 9
    (runState (runLoop (fun _ => 0) 9 (initState 2 1))) (Or.inl (by rfl))).2 0 0
    (by omega)
